import Mathlib

/-!
Stl::Vector and the Legacy iterator family

A shallow embedding of `src/Vector.h` and `src/Iterators.h`, and (namespace
`Earlier`) of the earlier `src/include/Vector.h` and `src/include/Iterator.h`.

* A storage block obtained from `new T[n]` is a `List T` of length `n`; the null
  pointer is `none`.  Every `Vector` exclusively owns its block, so the block is
  a field of the value.
* `uint64_t` counters are natural numbers below `2 ^ 64`; every operation that
  can wrap is written with its wrap-around (`% 2 ^ 64`, and `dec_u64` for `--`).
* A raw element pointer into the storage of a `Vector` is the signed slot
  position relative to the first slot of that storage.
* Reading or writing a slot that is not allocated, and signed overflow, are
  undefined behaviour in C++; the embedding reports them as
  `Fault.undefined_behavior`.  The exception thrown by `at` is
  `Fault.out_of_range`.
-/

namespace Stl

/-- The two ways an operation can fail to return normally. -/
inductive Fault where
  | out_of_range (index : Nat)
  | undefined_behavior
  deriving DecidableEq, Repr

deriving instance DecidableEq for Except

/-- Number of values of `uint64_t`. -/
def U64 : Nat := 2 ^ 64

/-- Decrement `--x` of a `uint64_t`: `x - 1` modulo `2 ^ 64`, that is `2 ^ 64 - 1` at
`x = 0` and `x - 1` otherwise. -/
def dec_u64 (x : Nat) : Nat :=
  if x = 0 then U64 - 1 else x - 1

/-- Expression `new T[n]`: a block of `n` default-initialised slots. -/
def new_array {T : Type} [Inhabited T] (n : Nat) : List T :=
  List.replicate n default

/-- Read of `p[i]` through a raw pointer `p` to the first slot of a block. -/
def load {T : Type} (p : Option (List T)) (i : Nat) : Except Fault T :=
  match p with
  | none => Except.error Fault.undefined_behavior
  | some blk =>
    match blk[i]? with
    | some x => Except.ok x
    | none => Except.error Fault.undefined_behavior

/-- Assignment `p[i] = x` through a raw pointer `p` to the first slot of a block;
the result is the updated block. -/
def store {T : Type} (p : Option (List T)) (i : Nat) (x : T) : Except Fault (List T) :=
  match p with
  | none => Except.error Fault.undefined_behavior
  | some blk =>
    if i < blk.length then Except.ok (blk.set i x)
    else Except.error Fault.undefined_behavior

/-- Loop `for (uint64_t i = start; i < start + count; ++i) body(i)` over a state `σ`,
stopping at the first fault. -/
def for_loop {σ : Type} (body : Nat → σ → Except Fault σ) : Nat → Nat → σ → Except Fault σ
  | _, 0, s => Except.ok s
  | i, k + 1, s =>
    match body i s with
    | Except.error e => Except.error e
    | Except.ok s1 => for_loop body (i + 1) k s1

/-- Class `Stl::Vector<T>`: the private members `data_`, `size_`, `capacity_`. -/
structure Vector (T : Type) where
  data_ : Option (List T)
  size_ : Nat
  capacity_ : Nat
  deriving DecidableEq, Repr

namespace Vector

variable {T : Type}

/-- Constructor `Vector()`. -/
def Vector_default : Vector T :=
  { data_ := none, size_ := 0, capacity_ := 0 }

/-- Constructor `Vector(uint64_t count)`. -/
def Vector_count [Inhabited T] (count : Nat) : Vector T :=
  { data_ := some (new_array count), size_ := count, capacity_ := count }

/-- Body of the copy loops `dst[i] = src[i]`. -/
def copy_slot (src : Option (List T)) (i : Nat) (dst : List T) : Except Fault (List T) :=
  match load src i with
  | Except.error e => Except.error e
  | Except.ok x => store (some dst) i x

/-- Constructor `Vector(const std::initializer_list<T>& ilist)`. -/
def Vector_ilist [Inhabited T] (ilist : List T) : Except Fault (Vector T) :=
  match for_loop (copy_slot (some ilist)) 0 ilist.length (new_array ilist.length) with
  | Except.error e => Except.error e
  | Except.ok d => Except.ok { data_ := some d, size_ := ilist.length, capacity_ := ilist.length }

/-- Method `is_empty() const`. -/
def is_empty (v : Vector T) : Bool := decide (0 = v.size_)

/-- Method `size() const`. -/
def size (v : Vector T) : Nat := v.size_

/-- Method `capacity() const`. -/
def capacity (v : Vector T) : Nat := v.capacity_

/-- Both overloads of `operator[]`: `return this->data_[index]`. -/
def operator_subscript (v : Vector T) (index : Nat) : Except Fault T :=
  load v.data_ index

/-- Method `at(uint64_t index) const`.  The test `index < 0` is never true of an
unsigned index. -/
def at_const (v : Vector T) (index : Nat) : Except Fault T :=
  if index ≥ v.size_ then Except.error (Fault.out_of_range index)
  else load v.data_ index

/-- Method `at(uint64_t index)`, the non-const overload: the element referred to
and the state of the object after the call. -/
def at_mut (v : Vector T) (index : Nat) : Except Fault (T × Vector T) :=
  if index ≥ v.size_ then Except.error (Fault.out_of_range index)
  else
    match load v.data_ index with
    | Except.error e => Except.error e
    | Except.ok x => Except.ok (x, v)

/-- Method `clear()`. -/
def clear (v : Vector T) : Vector T :=
  { v with size_ := 0 }

/-- Method `reserve(uint64_t new_capacity)`. -/
def reserve [Inhabited T] (v : Vector T) (new_capacity : Nat) : Except Fault (Vector T) :=
  if v.capacity_ < new_capacity then Except.ok v
  else
    match for_loop (copy_slot v.data_) 0 v.size_ (new_array new_capacity) with
    | Except.error e => Except.error e
    | Except.ok new_data =>
      Except.ok { data_ := some new_data, size_ := v.size_, capacity_ := new_capacity }

/-- Method `push_back(const T& Value)`. -/
def push_back [Inhabited T] (v : Vector T) (Value : T) : Except Fault (Vector T) :=
  match (if v.size_ ≥ v.capacity_ then v.reserve (v.capacity_ * 2 % U64) else Except.ok v) with
  | Except.error e => Except.error e
  | Except.ok v1 =>
    match store v1.data_ v1.size_ Value with
    | Except.error e => Except.error e
    | Except.ok d => Except.ok { v1 with data_ := some d, size_ := (v1.size_ + 1) % U64 }

/-- Method `pop_back()`: `--this->size_` on a `uint64_t`. -/
def pop_back (v : Vector T) : Vector T :=
  { v with size_ := dec_u64 v.size_ }

/-- Body of the loop of `pop_front`: `data_[i] = data_[i + 1]`. -/
def shift_slot (i : Nat) (d : Option (List T)) : Except Fault (Option (List T)) :=
  match load d (i + 1) with
  | Except.error e => Except.error e
  | Except.ok x =>
    match store d i x with
    | Except.error e => Except.error e
    | Except.ok blk => Except.ok (some blk)

/-- Method `pop_front()`: the loop bound `this->size_ - 1` is computed in `uint64_t`. -/
def pop_front (v : Vector T) : Except Fault (Vector T) :=
  match for_loop shift_slot 0 (dec_u64 v.size_) v.data_ with
  | Except.error e => Except.error e
  | Except.ok d => Except.ok { v with data_ := d, size_ := dec_u64 v.size_ }

/-- The calls `push_back(v_0); ...; push_back(v_{N-1})` in order. -/
def push_back_all [Inhabited T] : Vector T → List T → Except Fault (Vector T)
  | v, [] => Except.ok v
  | v, x :: xs =>
    match v.push_back x with
    | Except.error e => Except.error e
    | Except.ok v1 => push_back_all v1 xs

end Vector

end Stl

/-- Class `LegacyRandomAccessIterator<T>` with its bases `LegacyBidirectionalIterator`,
`LegacyForwardIterator`, `LegacyInputIterator` and `LegacyIterator`: the single
member `p_data_`, a slot position relative to the first slot of the storage. -/
structure LegacyRandomAccessIterator where
  p_data_ : Int
  deriving DecidableEq, Repr

/-- Least value of `difference_type` (`std::ptrdiff_t`, 64 bits). -/
def PTRDIFF_MIN : Int := -(2 ^ 63)

namespace LegacyIterator

/-- Pre-increment `operator++()`: the iterator after `++this->p_data_`. -/
def operator_inc (it : LegacyRandomAccessIterator) : LegacyRandomAccessIterator :=
  { p_data_ := it.p_data_ + 1 }

/-- Dereference `operator*() const` against the storage the position lies in. -/
def operator_deref {T : Type} (it : LegacyRandomAccessIterator) (storage : Option (List T)) :
    Except Stl.Fault T :=
  if it.p_data_ < 0 then Except.error Stl.Fault.undefined_behavior
  else Stl.load storage it.p_data_.toNat

end LegacyIterator

namespace LegacyInputIterator

/-- Comparison `operator==`: `(this->p_data_ - other.p_data_) == 0`. -/
def operator_eq (a other : LegacyRandomAccessIterator) : Bool :=
  decide (a.p_data_ - other.p_data_ = 0)

/-- Comparison `operator!=`: `!this->operator==(other)`. -/
def operator_ne (a other : LegacyRandomAccessIterator) : Bool :=
  !(operator_eq a other)

end LegacyInputIterator

namespace LegacyBidirectionalIterator

/-- Pre-decrement `operator--()`: the iterator after `--this->p_data_`. -/
def operator_dec (it : LegacyRandomAccessIterator) : LegacyRandomAccessIterator :=
  { p_data_ := it.p_data_ - 1 }

end LegacyBidirectionalIterator

namespace LegacyRandomAccessIterator

/-- Loop `while (m--) ++*this;` entered with a counter `m ≥ 0` whose value is `k`. -/
def advance_loop : Nat → LegacyRandomAccessIterator → LegacyRandomAccessIterator
  | 0, it => it
  | k + 1, it => advance_loop k (LegacyIterator.operator_inc it)

/-- Loop `while (m++) --*this;` entered with a counter `m < 0` whose value is `-k`. -/
def retreat_loop : Nat → LegacyRandomAccessIterator → LegacyRandomAccessIterator
  | 0, it => it
  | k + 1, it => retreat_loop k (LegacyBidirectionalIterator.operator_dec it)

/-- Compound assignment `operator+=(difference_type n)`: the iterator after the call. -/
def operator_plus_assign (it : LegacyRandomAccessIterator) (n : Int) :
    LegacyRandomAccessIterator :=
  if n ≥ 0 then advance_loop n.toNat it
  else retreat_loop (-n).toNat it

/-- Compound assignment `operator-=(difference_type n)`: `this->operator+=(-n)`.
Negating the least `difference_type` overflows. -/
def operator_minus_assign (it : LegacyRandomAccessIterator) (n : Int) :
    Except Stl.Fault LegacyRandomAccessIterator :=
  if n = PTRDIFF_MIN then Except.error Stl.Fault.undefined_behavior
  else Except.ok (operator_plus_assign it (-n))

/-- Member `operator-(difference_type n) const`: `tmp = *this; return tmp -= n;`.
The receiver is const, so only the returned iterator is produced. -/
def operator_minus_n (it : LegacyRandomAccessIterator) (n : Int) :
    Except Stl.Fault LegacyRandomAccessIterator :=
  operator_minus_assign it n

/-- Friend `operator+(LegacyRandomAccessIterator& Lhs, difference_type n)`:
`Lhs.p_data_ += n; return Lhs;`.  The first component is the returned copy, the
second is `Lhs` after the call. -/
def operator_plus (Lhs : LegacyRandomAccessIterator) (n : Int) :
    LegacyRandomAccessIterator × LegacyRandomAccessIterator :=
  ({ p_data_ := Lhs.p_data_ + n }, { p_data_ := Lhs.p_data_ + n })

/-- Friend `operator+(difference_type n, LegacyRandomAccessIterator& Rhs)`:
`return Rhs + n;`.  The first component is the returned copy, the second is `Rhs`
after the call. -/
def operator_plus_left (n : Int) (Rhs : LegacyRandomAccessIterator) :
    LegacyRandomAccessIterator × LegacyRandomAccessIterator :=
  operator_plus Rhs n

/-- Member `operator-(const LegacyRandomAccessIterator& other) const`: the signed
slot count `this->p_data_ - other.p_data_`. -/
def operator_minus (a other : LegacyRandomAccessIterator) : Int :=
  a.p_data_ - other.p_data_

end LegacyRandomAccessIterator

namespace Stl

namespace Vector

variable {T : Type}

/-- Method `begin()`: an iterator on `this->data_`. -/
def begin (_v : Vector T) : LegacyRandomAccessIterator :=
  { p_data_ := 0 }

/-- Number of slots of the current allocation. -/
def allocated_slots (v : Vector T) : Nat :=
  match v.data_ with
  | none => 0
  | some blk => blk.length

/-- Method `end()`: an iterator on `this->data_ + this->size_`.  The pointer sum is
defined up to one past the last slot of the allocation (and as `nullptr + 0`);
beyond that it is undefined behaviour. -/
def end_ (v : Vector T) : Except Fault LegacyRandomAccessIterator :=
  if v.size_ ≤ v.allocated_slots then Except.ok { p_data_ := (v.size_ : Int) }
  else Except.error Fault.undefined_behavior

/-- The traversal `for (it = first; it != v.end(); ++it) visit(*it)`, recording the
position and the value of every visit after those of `acc`.  `none` when the loop
has not stopped within `fuel` tests of its condition. -/
def traverse (v : Vector T) :
    Nat → LegacyRandomAccessIterator → List (Int × T) → Option (Except Fault (List (Int × T)))
  | 0, _, _ => none
  | fuel + 1, it, acc =>
    match v.end_ with
    | Except.error e => some (Except.error e)
    | Except.ok last =>
      if LegacyInputIterator.operator_ne it last then
        match LegacyIterator.operator_deref it v.data_ with
        | Except.error e => some (Except.error e)
        | Except.ok x =>
          traverse v fuel (LegacyIterator.operator_inc it) (acc ++ [(it.p_data_, x)])
      else some (Except.ok acc)

end Vector

end Stl

namespace Stl

namespace Vector

variable {T : Type}

/-- Copy constructor `Vector(const Vector& other)`: the block is `new T[other.size_]`. -/
def Vector_copy [Inhabited T] (other : Vector T) : Except Fault (Vector T) :=
  match for_loop (copy_slot other.data_) 0 other.size_ (new_array other.size_) with
  | Except.error e => Except.error e
  | Except.ok d =>
    Except.ok { data_ := some d, size_ := other.size_, capacity_ := other.capacity_ }

/-- Copy assignment `operator=(const Vector& other)` on an object distinct from
`other`: the block of the receiver is freed, the new block is `new T[capacity_]`.
The result is the receiver after the call; `other` is a const reference. -/
def operator_assign [Inhabited T] (_this other : Vector T) : Except Fault (Vector T) :=
  match for_loop (copy_slot other.data_) 0 other.size_ (new_array other.capacity_) with
  | Except.error e => Except.error e
  | Except.ok d =>
    Except.ok { data_ := some d, size_ := other.size_, capacity_ := other.capacity_ }

end Vector

end Stl

namespace LegacyRandomAccessIterator

/-- Comparison `operator<`: `other - *this > 0`. -/
def operator_lt (a other : LegacyRandomAccessIterator) : Bool :=
  decide (operator_minus other a > 0)

/-- Comparison `operator>`: `other < *this`. -/
def operator_gt (a other : LegacyRandomAccessIterator) : Bool :=
  operator_lt other a

/-- Comparison `operator>=`: `!(*this < other)`. -/
def operator_ge (a other : LegacyRandomAccessIterator) : Bool :=
  !(operator_lt a other)

/-- Comparison `operator<=`: `!(*this > other)`. -/
def operator_le (a other : LegacyRandomAccessIterator) : Bool :=
  !(operator_gt a other)

/-- Loop `while (m--) ++*this;` as written, on the signed counter `m`: the iterator
and the number of single-step moves made after `moves`.  `none` when the loop has not
stopped within `fuel` tests of its condition. -/
def while_post_dec :
    Nat → Int → LegacyRandomAccessIterator → Nat → Option (LegacyRandomAccessIterator × Nat)
  | 0, _, _, _ => none
  | fuel + 1, m, it, moves =>
    if m ≠ 0 then while_post_dec fuel (m - 1) (LegacyIterator.operator_inc it) (moves + 1)
    else some (it, moves)

/-- Loop `while (m++) --*this;` as written, on the signed counter `m`: the iterator
and the number of single-step moves made after `moves`.  `none` when the loop has not
stopped within `fuel` tests of its condition. -/
def while_post_inc :
    Nat → Int → LegacyRandomAccessIterator → Nat → Option (LegacyRandomAccessIterator × Nat)
  | 0, _, _, _ => none
  | fuel + 1, m, it, moves =>
    if m ≠ 0 then
      while_post_inc fuel (m + 1) (LegacyBidirectionalIterator.operator_dec it) (moves + 1)
    else some (it, moves)

/-- Body of `operator+=(difference_type n)` with its two loops as written: the
iterator after the call and the number of single-step moves. -/
def operator_plus_assign_loop (fuel : Nat) (it : LegacyRandomAccessIterator) (n : Int) :
    Option (LegacyRandomAccessIterator × Nat) :=
  if n ≥ 0 then while_post_dec fuel n it 0
  else while_post_inc fuel n it 0

/-- What an lvalue of the iterator class designates: the element at a slot position,
or the iterator object lying `offset` objects after the receiver. -/
inductive Referent where
  | element (position : Int)
  | iterator_object (offset : Int)
  deriving DecidableEq, Repr

/-- The lvalue `*it` of `LegacyIterator::operator*`: the element at the position. -/
def deref_referent (it : LegacyRandomAccessIterator) : Referent :=
  Referent.element it.p_data_

/-- Member `operator[](difference_type index)`: `return *(this + index);`, where
`this` is the address of the iterator object, together with the receiver after the
call. -/
def operator_subscript (it : LegacyRandomAccessIterator) (index : Int) :
    Referent × LegacyRandomAccessIterator :=
  (Referent.iterator_object index, it)

end LegacyRandomAccessIterator

namespace Earlier

/-- Class `Iterator<T>` of `src/include/Iterator.h`: the member `current_`, a slot
position relative to the first slot of the storage. -/
structure Iterator where
  current_ : Int
  deriving DecidableEq, Repr

namespace Iterator

/-- Member `Iterator& operator==(const Iterator& Other)`:
`this->current_ = Other.current_; return *this;`.  The result is the receiver after
the call, which is also the object the returned reference designates. -/
def operator_eq (_this Other : Iterator) : Iterator :=
  { current_ := Other.current_ }

/-- Member `bool operator!=(const Iterator& Other)`:
`return this->current_ != Other.current_;`. -/
def operator_ne (a Other : Iterator) : Bool :=
  decide (a.current_ ≠ Other.current_)

end Iterator

/-- Class `Stl::Vector<T>` of `src/include/Vector.h`: the private members `data_`,
`size_`, `capacity_` (both counters are `size_t`, 64 bits). -/
structure Vector (T : Type) where
  data_ : Option (List T)
  size_ : Nat
  capacity_ : Nat
  deriving DecidableEq, Repr

namespace Vector

variable {T : Type}

/-- Constructor `Vector()`. -/
def Vector_default : Vector T :=
  { data_ := none, size_ := 0, capacity_ := 0 }

/-- Constructor `Vector(size_t Count)`. -/
def Vector_count [Inhabited T] (Count : Nat) : Vector T :=
  { data_ := some (Stl.new_array Count), size_ := Count, capacity_ := Count }

/-- Method `size() const`. -/
def size (v : Vector T) : Nat := v.size_

/-- Method `operator[](size_t Index)`: `return this->data_[Index]`. -/
def operator_subscript (v : Vector T) (Index : Nat) : Except Stl.Fault T :=
  Stl.load v.data_ Index

/-- Private method `add_memory()`: the capacity is doubled in `size_t`, a block of
that many slots is allocated and the `size_` elements are copied into it. -/
def add_memory [Inhabited T] (v : Vector T) : Except Stl.Fault (Vector T) :=
  match Stl.for_loop (Stl.Vector.copy_slot v.data_) 0 v.size_
      (Stl.new_array (v.capacity_ * 2 % Stl.U64)) with
  | Except.error e => Except.error e
  | Except.ok d =>
    Except.ok { data_ := some d, size_ := v.size_, capacity_ := v.capacity_ * 2 % Stl.U64 }

/-- Method `push_back(const T& Value)`. -/
def push_back [Inhabited T] (v : Vector T) (Value : T) : Except Stl.Fault (Vector T) :=
  match (if v.size_ ≥ v.capacity_ then v.add_memory else Except.ok v) with
  | Except.error e => Except.error e
  | Except.ok v1 =>
    match Stl.store v1.data_ v1.size_ Value with
    | Except.error e => Except.error e
    | Except.ok d =>
      Except.ok { v1 with data_ := some d, size_ := (v1.size_ + 1) % Stl.U64 }

end Vector

end Earlier

namespace Stl

variable {T : Type}

/-- On the values of `uint64_t`, `dec_u64` is subtraction of one modulo `2 ^ 64`. -/
theorem dec_u64_eq_mod (x : Nat) (h : x < U64) : dec_u64 x = (x + U64 - 1) % U64 := by
  unfold dec_u64
  by_cases hx : x = 0
  · subst hx
    rw [if_pos rfl, Nat.zero_add, Nat.mod_eq_of_lt (Nat.sub_lt (by decide) (by decide))]
  · rw [if_neg hx]
    have e : x + U64 - 1 = (x - 1) + U64 := by omega
    rw [e, Nat.add_mod_right, Nat.mod_eq_of_lt (by omega)]

theorem load_some (blk : List T) (i : Nat) (h : i < blk.length) :
    load (some blk) i = Except.ok blk[i] := by
  simp [load, List.getElem?_eq_getElem h]

theorem load_eq_ok_iff (p : Option (List T)) (i : Nat) (x : T) :
    load p i = Except.ok x ↔ ∃ blk, p = some blk ∧ blk[i]? = some x := by
  cases p with
  | none => simp [load]
  | some blk =>
    cases h : blk[i]? with
    | none => simp [load, h]
    | some y => simp [load, h]

theorem store_some (blk : List T) (i : Nat) (x : T) (h : i < blk.length) :
    store (some blk) i x = Except.ok (blk.set i x) := by
  simp [store, h]

theorem store_fault (p : Option (List T)) (i : Nat) (x : T)
    (h : ∀ blk, p = some blk → blk.length ≤ i) :
    store p i x = Except.error Fault.undefined_behavior := by
  cases p with
  | none => rfl
  | some blk =>
    have := h blk rfl
    simp [store]
    omega

/-- A copy loop that returns leaves the number of slots of the destination as it was. -/
theorem copy_loop_length (src : Option (List T)) (k i : Nat) (dst d : List T)
    (h : for_loop (Vector.copy_slot src) i k dst = Except.ok d) : d.length = dst.length := by
  induction k generalizing i dst with
  | zero =>
    simp [for_loop] at h
    rw [h]
  | succ k ih =>
    simp only [for_loop] at h
    cases hb : Vector.copy_slot src i dst with
    | error e => simp [hb] at h
    | ok s1 =>
      simp only [hb] at h
      have h1 := ih (i + 1) s1 h
      have h2 : s1.length = dst.length := by
        unfold Vector.copy_slot at hb
        cases hl : load src i with
        | error e => simp [hl] at hb
        | ok x =>
          simp only [hl] at hb
          unfold store at hb
          simp only at hb
          split at hb
          · simp at hb
            rw [← hb]
            simp
          · simp at hb
      omega

/-- A copy loop over slots that exist on both sides returns, and writes exactly the
slots `i .. i + k - 1` of the destination with the source's values. -/
theorem copy_loop_spec (s : List T) (k i : Nat) (dst : List T)
    (h1 : i + k ≤ s.length) (h2 : i + k ≤ dst.length) :
    ∃ d, for_loop (Vector.copy_slot (some s)) i k dst = Except.ok d ∧ d.length = dst.length ∧
      ∀ j, d[j]? = if i ≤ j ∧ j < i + k then s[j]? else dst[j]? := by
  induction k generalizing i dst with
  | zero =>
    refine ⟨dst, rfl, rfl, ?_⟩
    intro j
    have : ¬ (i ≤ j ∧ j < i + 0) := by omega
    rw [if_neg this]
  | succ k ih =>
    have hi : i < s.length := by omega
    have hd : i < dst.length := by omega
    have hb : Vector.copy_slot (some s) i dst = Except.ok (dst.set i s[i]) := by
      simp [Vector.copy_slot, load_some s i hi, store_some dst i _ hd]
    obtain ⟨d, hd1, hd2, hd3⟩ := ih (i + 1) (dst.set i s[i]) (by omega) (by simp; omega)
    refine ⟨d, ?_, ?_, ?_⟩
    · simp only [for_loop, hb]
      exact hd1
    · simpa using hd2
    · intro j
      rw [hd3 j]
      by_cases hj : j = i
      · subst hj
        have c1 : ¬ (j + 1 ≤ j ∧ j < j + 1 + k) := by omega
        have c2 : (j ≤ j ∧ j < j + (k + 1)) := by omega
        simp [c1, c2, List.getElem?_eq_getElem hi, List.getElem?_set, hd]
      · by_cases hr : i + 1 ≤ j ∧ j < i + 1 + k
        · have c2 : (i ≤ j ∧ j < i + (k + 1)) := by omega
          simp [hr, c2]
        · have c2 : ¬ (i ≤ j ∧ j < i + (k + 1)) := by omega
          have hne : ¬ i = j := fun h => hj h.symm
          simp [hr, c2, List.getElem?_set, hne]

/-- Every fault of a copy loop is an access to a slot that is not allocated. -/
theorem copy_loop_error (src : Option (List T)) (k i : Nat) (dst : List T) (e : Fault)
    (h : for_loop (Vector.copy_slot src) i k dst = Except.error e) :
    e = Fault.undefined_behavior := by
  induction k generalizing i dst with
  | zero => simp [for_loop] at h
  | succ k ih =>
    simp only [for_loop] at h
    cases hb : Vector.copy_slot src i dst with
    | ok s1 =>
      simp only [hb] at h
      exact ih (i + 1) s1 h
    | error e1 =>
      simp only [hb] at h
      have he : e1 = e := by simpa using h
      subst he
      unfold Vector.copy_slot at hb
      cases hl : load src i with
      | error e2 =>
        simp only [hl] at hb
        have h2 : e2 = e1 := by simpa using hb
        subst h2
        unfold load at hl
        split at hl
        · simpa using hl.symm
        · split at hl
          · simp at hl
          · simpa using hl.symm
      | ok x =>
        simp only [hl] at hb
        unfold store at hb
        simp only at hb
        split at hb
        · simp at hb
        · simpa using hb.symm

namespace Vector

/-- C1 (the code departs from it): starting from the default-constructed empty
Vector, every non-empty sequence of `push_back` calls already fails at its first
call: `reserve(0)` leaves a block of zero slots and the write to slot 0 is an access
outside the allocation, so no state with `size() == N` and readable elements is
ever reached. -/
theorem C1_push_back_all_from_empty_faults [Inhabited T] (x : T) (xs : List T) :
    push_back_all (Vector_default : Vector T) (x :: xs)
      = Except.error Fault.undefined_behavior := by
  rfl

/-- C2 (the code departs from it): a `push_back` on a Vector with
`size() >= capacity()` whose allocation has at most `capacity()` slots never
returns a grown Vector; it always ends in an access outside the allocation. -/
theorem C2_push_back_at_capacity_faults [Inhabited T] (v : Vector T) (x : T)
    (hfull : v.size_ ≥ v.capacity_) (halloc : v.allocated_slots ≤ v.capacity_) :
    v.push_back x = Except.error Fault.undefined_behavior := by
  unfold push_back
  rw [if_pos hfull]
  unfold reserve
  by_cases hg : v.capacity_ < v.capacity_ * 2 % U64
  · rw [if_pos hg]
    simp only
    rw [store_fault]
    intro blk hblk
    simp only [allocated_slots, hblk] at halloc
    omega
  · rw [if_neg hg]
    cases hl : for_loop (copy_slot v.data_) 0 v.size_ (new_array (v.capacity_ * 2 % U64)) with
    | error e =>
      simp only
      rw [copy_loop_error _ _ _ _ _ hl]
    | ok d =>
      simp only
      have hlen := copy_loop_length _ _ _ _ _ hl
      rw [store_fault]
      intro blk hblk
      have hb : blk = d := by simpa using hblk.symm
      subst hb
      simp only [new_array, List.length_replicate] at hlen
      omega

/-- Witness of C2 at the default-constructed empty Vector. -/
theorem C2_push_back_at_capacity_faults_witness :
    (Vector_default : Vector Nat).size_ ≥ (Vector_default : Vector Nat).capacity_ ∧
    (Vector_default : Vector Nat).push_back 1 = Except.error Fault.undefined_behavior :=
  ⟨by decide, C2_push_back_at_capacity_faults Vector_default 1 (by decide) (by decide)⟩

/-- C3 (as amended): `at(index)` throws the out-of-range error, carrying the index,
exactly when `index >= size()`; when `index < size()` both overloads perform the raw
read of slot `index` that `operator[]` performs: they return the element stored
there when the slot is allocated, the non-const overload leaving the Vector as it
was, and are an access outside the allocation when it is not. -/
theorem C3_at_bounds_checked (v : Vector T) (index : Nat) :
    ((∃ k, v.at_const index = Except.error (Fault.out_of_range k)) ↔ index ≥ v.size) ∧
    ((∃ k, v.at_mut index = Except.error (Fault.out_of_range k)) ↔ index ≥ v.size) ∧
    (index ≥ v.size → v.at_const index = Except.error (Fault.out_of_range index) ∧
      v.at_mut index = Except.error (Fault.out_of_range index)) ∧
    (index < v.size → ∀ blk x, v.data_ = some blk → blk[index]? = some x →
      v.at_const index = Except.ok x ∧ v.at_mut index = Except.ok (x, v)) ∧
    (index < v.size → v.at_const index = v.operator_subscript index) ∧
    (index < v.size → index < v.allocated_slots →
      ∃ x, v.at_const index = Except.ok x ∧ v.at_mut index = Except.ok (x, v)) ∧
    (index < v.size → v.allocated_slots ≤ index →
      v.at_const index = Except.error Fault.undefined_behavior ∧
      v.at_mut index = Except.error Fault.undefined_behavior) := by
  have hload : ∀ k, load v.data_ index ≠ Except.error (Fault.out_of_range k) := by
    intro k
    unfold load
    split
    · simp
    · split <;> simp
  have hok : index < v.size → ∀ blk x, v.data_ = some blk → blk[index]? = some x →
      v.at_const index = Except.ok x ∧ v.at_mut index = Except.ok (x, v) := by
    intro h blk x hd hx
    simp only [size] at h
    have hn : ¬ index ≥ v.size_ := by omega
    have hl : load v.data_ index = Except.ok x := (load_eq_ok_iff _ _ _).2 ⟨blk, hd, hx⟩
    simp only [at_const, at_mut]
    rw [if_neg hn, if_neg hn, hl]
    exact ⟨rfl, rfl⟩
  refine ⟨?_, ?_, ?_, hok, ?_, ?_, ?_⟩
  · constructor
    · rintro ⟨k, hk⟩
      by_contra hlt
      simp only [at_const, size] at hk hlt
      rw [if_neg hlt] at hk
      exact hload k hk
    · intro h
      exact ⟨index, by simp only [at_const, size] at h ⊢; rw [if_pos h]⟩
  · constructor
    · rintro ⟨k, hk⟩
      by_contra hlt
      simp only [at_mut, size] at hk hlt
      rw [if_neg hlt] at hk
      cases hl : load v.data_ index with
      | error e =>
        simp only [hl] at hk
        have he : e = Fault.out_of_range k := by simpa using hk
        exact hload k (by rw [hl, he])
      | ok x => simp [hl] at hk
    · intro h
      exact ⟨index, by simp only [at_mut, size] at h ⊢; rw [if_pos h]⟩
  · intro h
    simp only [size] at h
    simp only [at_const, at_mut]
    rw [if_pos h, if_pos h]
    exact ⟨rfl, rfl⟩
  · intro h
    simp only [size] at h
    have hn : ¬ index ≥ v.size_ := by omega
    simp only [at_const, operator_subscript]
    rw [if_neg hn]
  · intro h ha
    cases hd : v.data_ with
    | none =>
      simp only [allocated_slots, hd] at ha
      omega
    | some blk =>
      simp only [allocated_slots, hd] at ha
      exact ⟨blk[index], hok h blk blk[index] hd (List.getElem?_eq_getElem ha)⟩
  · intro h ha
    simp only [size] at h
    have hn : ¬ index ≥ v.size_ := by omega
    have hl : load v.data_ index = Except.error Fault.undefined_behavior := by
      cases hd : v.data_ with
      | none => rfl
      | some blk =>
        simp only [allocated_slots, hd] at ha
        simp only [load]
        rw [List.getElem?_eq_none ha]
    simp only [at_const, at_mut]
    rw [if_neg hn, if_neg hn, hl]
    exact ⟨rfl, rfl⟩

/-- Witness of C3 on the Vector `{1,2,3}`: `at(1)` returns 2, `at(3)` throws. -/
theorem C3_at_bounds_checked_witness :
    (⟨some [1, 2, 3], 3, 3⟩ : Vector Nat).at_const 1 = Except.ok 2 ∧
    (⟨some [1, 2, 3], 3, 3⟩ : Vector Nat).at_mut 1 = Except.ok (2, ⟨some [1, 2, 3], 3, 3⟩) ∧
    (⟨some [1, 2, 3], 3, 3⟩ : Vector Nat).at_const 3 = Except.error (Fault.out_of_range 3) :=
  ⟨((C3_at_bounds_checked ⟨some [1, 2, 3], 3, 3⟩ 1).2.2.2.1 (by decide) [1, 2, 3] 2 rfl rfl).1,
   ((C3_at_bounds_checked ⟨some [1, 2, 3], 3, 3⟩ 1).2.2.2.1 (by decide) [1, 2, 3] 2 rfl rfl).2,
   ((C3_at_bounds_checked ⟨some [1, 2, 3], 3, 3⟩ 3).2.2.1 (by decide)).1⟩

/-- Counterexample to C3 as stated: after `pop_back()` on the default-constructed
empty Vector `size()` is `2 ^ 64 - 1`, so index 0 is below `size()`, yet `at(0)`
returns no element in either overload: it reads through the null `data_`. -/
theorem C3_counterexample :
    0 < (pop_back (Vector_default : Vector Nat)).size ∧
    (pop_back (Vector_default : Vector Nat)).at_const 0
      = Except.error Fault.undefined_behavior ∧
    (pop_back (Vector_default : Vector Nat)).at_mut 0
      = Except.error Fault.undefined_behavior ∧
    ¬ ∃ x, (pop_back (Vector_default : Vector Nat)).at_const 0 = Except.ok x := by
  refine ⟨by decide, by decide, by decide, ?_⟩
  rintro ⟨x, hx⟩
  have hf : (pop_back (Vector_default : Vector Nat)).at_const 0
      = Except.error Fault.undefined_behavior := by decide
  rw [hf] at hx
  cases hx

/-- C4 (the code departs from it): a `reserve` that asks for more than the current
capacity returns at once and changes nothing, so `capacity()` stays below the
requested value. -/
theorem C4_reserve_larger_changes_nothing [Inhabited T] (v : Vector T) (new_capacity : Nat)
    (h : v.capacity_ < new_capacity) :
    v.reserve new_capacity = Except.ok v ∧
    ∀ v1, v.reserve new_capacity = Except.ok v1 → v1.capacity < new_capacity := by
  have hr : v.reserve new_capacity = Except.ok v := by
    unfold reserve
    rw [if_pos h]
  refine ⟨hr, ?_⟩
  intro v1 h1
  rw [hr] at h1
  have : v = v1 := by simpa using h1
  subst this
  exact h

/-- Witness of C4 on the Vector `{1,2,3}` and `reserve(10)`. -/
theorem C4_reserve_larger_changes_nothing_witness :
    (⟨some [1, 2, 3], 3, 3⟩ : Vector Nat).reserve 10 = Except.ok ⟨some [1, 2, 3], 3, 3⟩ :=
  (C4_reserve_larger_changes_nothing ⟨some [1, 2, 3], 3, 3⟩ 10 (by decide)).1

/-- C5 (the code departs from it): a `reserve` that asks for less than the current
capacity is not a no-op.  When the request still holds the `size()` elements, the
call returns with `capacity()` lowered to the request, on a fresh block of that many
slots that keeps the elements at the indices below `size()`. -/
theorem C5_reserve_smaller_shrinks [Inhabited T] (v : Vector T) (blk : List T)
    (new_capacity : Nat) (hd : v.data_ = some blk) (hs : v.size_ ≤ blk.length)
    (hn : v.size_ ≤ new_capacity) (hlt : new_capacity < v.capacity_) :
    ∃ d, v.reserve new_capacity
        = Except.ok { data_ := some d, size_ := v.size_, capacity_ := new_capacity } ∧
      d.length = new_capacity ∧
      (∀ i, i < v.size_ → d[i]? = blk[i]?) ∧
      new_capacity ≠ v.capacity := by
  obtain ⟨d, h1, h2, h3⟩ := copy_loop_spec blk v.size_ 0 (new_array new_capacity)
    (by omega) (by simp [new_array]; omega)
  refine ⟨d, ?_, ?_, ?_, ?_⟩
  · unfold reserve
    have hg : ¬ v.capacity_ < new_capacity := by omega
    rw [if_neg hg, hd, h1]
  · simpa [new_array] using h2
  · intro i hi
    rw [h3 i]
    have : 0 ≤ i ∧ i < 0 + v.size_ := by omega
    rw [if_pos this]
  · simp only [capacity]
    omega

/-- Witness of C5 on `{1,2,3}` after two `pop_back` calls, and `reserve(2)`: the
capacity drops from 3 to 2. -/
theorem C5_reserve_smaller_shrinks_witness :
    (pop_back (pop_back (⟨some [1, 2, 3], 3, 3⟩ : Vector Nat))) = ⟨some [1, 2, 3], 1, 3⟩ ∧
    ∃ d, (pop_back (pop_back (⟨some [1, 2, 3], 3, 3⟩ : Vector Nat))).reserve 2
        = Except.ok { data_ := some d, size_ := 1, capacity_ := 2 } ∧
      d.length = 2 ∧
      (∀ i, i < 1 → d[i]? = [1, 2, 3][i]?) ∧
      2 ≠ (pop_back (pop_back (⟨some [1, 2, 3], 3, 3⟩ : Vector Nat))).capacity :=
  ⟨by decide,
   C5_reserve_smaller_shrinks (pop_back (pop_back ⟨some [1, 2, 3], 3, 3⟩)) [1, 2, 3] 2
     (by decide) (by decide) (by decide) (by decide)⟩

end Vector

end Stl

namespace LegacyRandomAccessIterator

theorem advance_loop_pos (k : Nat) (it : LegacyRandomAccessIterator) :
    (advance_loop k it).p_data_ = it.p_data_ + k := by
  induction k generalizing it with
  | zero => simp [advance_loop]
  | succ k ih =>
    simp only [advance_loop]
    rw [ih]
    simp only [LegacyIterator.operator_inc]
    push_cast
    omega

theorem retreat_loop_pos (k : Nat) (it : LegacyRandomAccessIterator) :
    (retreat_loop k it).p_data_ = it.p_data_ - k := by
  induction k generalizing it with
  | zero => simp [retreat_loop]
  | succ k ih =>
    simp only [retreat_loop]
    rw [ih]
    simp only [LegacyBidirectionalIterator.operator_dec]
    push_cast
    omega

theorem operator_plus_assign_pos (it : LegacyRandomAccessIterator) (n : Int) :
    (operator_plus_assign it n).p_data_ = it.p_data_ + n := by
  unfold operator_plus_assign
  split
  · rw [advance_loop_pos]
    omega
  · rw [retreat_loop_pos]
    omega

/-- C6 (the code departs from it): `it + n` and `n + it` return an iterator at
position `p + n` but also move `it` itself to `p + n`; only `it - n` is
non-mutating, returning position `p - n` for every `n` whose negation is
representable. -/
theorem C6_operator_plus_moves_operand (p n : Int) :
    operator_plus ⟨p⟩ n = (⟨p + n⟩, ⟨p + n⟩) ∧
    operator_plus_left n ⟨p⟩ = (⟨p + n⟩, ⟨p + n⟩) ∧
    (n ≠ 0 → (operator_plus ⟨p⟩ n).2 ≠ ⟨p⟩ ∧ (operator_plus_left n ⟨p⟩).2 ≠ ⟨p⟩) ∧
    (n ≠ PTRDIFF_MIN → operator_minus_n ⟨p⟩ n = Except.ok ⟨p - n⟩) := by
  refine ⟨rfl, rfl, ?_, ?_⟩
  · intro hn
    simp only [operator_plus_left, operator_plus]
    constructor <;>
    · intro h
      injection h with h
      omega
  · intro hn
    simp only [operator_minus_n, operator_minus_assign]
    rw [if_neg hn]
    have := operator_plus_assign_pos ⟨p⟩ (-n)
    cases hr : operator_plus_assign ⟨p⟩ (-n) with
    | mk q =>
      rw [hr] at this
      simp only at this
      rw [this]
      congr 2

/-- Witness of C6: from position 0, `it + 2` returns position 2 and leaves `it` at
position 2. -/
theorem C6_operator_plus_moves_operand_witness :
    operator_plus ⟨0⟩ 2 = (⟨2⟩, ⟨2⟩) ∧ (operator_plus ⟨0⟩ 2).2 ≠ ⟨0⟩ ∧
    operator_minus_n ⟨5⟩ 2 = Except.ok ⟨3⟩ :=
  ⟨by decide, ((C6_operator_plus_moves_operand 0 2).2.2.1 (by decide)).1,
   (C6_operator_plus_moves_operand 5 2).2.2.2 (by decide)⟩

end LegacyRandomAccessIterator

namespace Stl

namespace Vector

variable {T : Type}

/-- The list constructor returns, with the list itself as the content of a block of
exactly as many slots. -/
theorem Vector_ilist_eq [Inhabited T] (L : List T) :
    Vector_ilist L = Except.ok { data_ := some L, size_ := L.length, capacity_ := L.length } := by
  obtain ⟨d, h1, h2, h3⟩ := copy_loop_spec L L.length 0 (new_array L.length)
    (by omega) (by simp [new_array])
  have hd : d = L := by
    apply List.ext_getElem?
    intro j
    rw [h3 j]
    by_cases hj : j < L.length
    · have : 0 ≤ j ∧ j < 0 + L.length := by omega
      rw [if_pos this]
    · have : ¬ (0 ≤ j ∧ j < 0 + L.length) := by omega
      rw [if_neg this]
      simp only [new_array]
      rw [List.getElem?_eq_none (by simp; omega), List.getElem?_eq_none (by omega)]
  unfold Vector_ilist
  rw [h1, hd]

/-- A traversal started at slot `i` of a Vector whose `size()` slots are all
allocated stops at `end()` after visiting the slots `i .. size() - 1` in order. -/
theorem traverse_from (blk : List T) (cap fuel i : Nat) (acc : List (Int × T))
    (hi : i ≤ blk.length) (hf : blk.length - i < fuel) :
    traverse ⟨some blk, blk.length, cap⟩ fuel ⟨(i : Int)⟩ acc
      = some (Except.ok (acc ++ ((blk.drop i).enumFrom i).map (fun q => ((q.1 : Int), q.2)))) := by
  induction fuel generalizing i acc with
  | zero => omega
  | succ fuel ih =>
    have hend : end_ (⟨some blk, blk.length, cap⟩ : Vector T)
        = Except.ok ⟨(blk.length : Int)⟩ := by
      simp [end_, allocated_slots]
    unfold traverse
    simp only [hend]
    by_cases hlt : i < blk.length
    · have hne : LegacyInputIterator.operator_ne ⟨(i : Int)⟩ ⟨(blk.length : Int)⟩ = true := by
        simp [LegacyInputIterator.operator_ne, LegacyInputIterator.operator_eq]
        omega
      have hder : LegacyIterator.operator_deref ⟨(i : Int)⟩ (some blk) = Except.ok blk[i] := by
        simp only [LegacyIterator.operator_deref]
        have h0 : ¬ ((i : Int) < 0) := by omega
        rw [if_neg h0]
        simpa using load_some blk i hlt
      rw [if_pos hne]
      simp only [hder]
      have hinc : LegacyIterator.operator_inc ⟨(i : Int)⟩ = ⟨((i + 1 : Nat) : Int)⟩ := by
        simp [LegacyIterator.operator_inc]
      rw [hinc, ih (i + 1) _ (by omega) (by omega)]
      rw [List.drop_eq_getElem_cons hlt]
      simp only [List.enumFrom_cons, List.map_cons, List.append_assoc, List.singleton_append]
    · have hie : i = blk.length := by omega
      have hne : LegacyInputIterator.operator_ne ⟨(i : Int)⟩ ⟨(blk.length : Int)⟩ = false := by
        simp [LegacyInputIterator.operator_ne, LegacyInputIterator.operator_eq, hie]
      rw [hne]
      simp [hie]

/-- C8: the Vector built from a list `L` of `n` elements has `size() == n` and
`capacity() == n`, `operator[](i)` returns `L[i]` for every `i < n`, and the
traversal from `begin()` by pre-increment stops at `end()` (with any fuel above `n`)
after visiting exactly the `n` positions `0 .. n - 1`, whose values are `L` in order. -/
theorem C8_ilist_round_trip [Inhabited T] (L : List T) :
    ∃ v visited, Vector_ilist L = Except.ok v ∧
      v.size = L.length ∧ v.capacity = L.length ∧
      (∀ i (h : i < L.length), v.operator_subscript i = Except.ok (L.get ⟨i, h⟩)) ∧
      (∀ fuel, L.length < fuel → v.traverse fuel v.begin [] = some (Except.ok visited)) ∧
      visited.length = L.length ∧
      visited.map Prod.snd = L ∧
      visited.map Prod.fst = (List.range L.length).map Int.ofNat := by
  refine ⟨_, (L.enumFrom 0).map (fun q => ((q.1 : Int), q.2)), Vector_ilist_eq L, rfl, rfl,
    ?_, ?_, ?_, ?_, ?_⟩
  · intro i h
    simpa [operator_subscript] using load_some L i h
  · intro fuel hf
    have := traverse_from L L.length fuel 0 [] (by omega) (by omega)
    simpa [begin] using this
  · simp
  · rw [List.map_map]
    have : (Prod.snd ∘ fun q : Nat × T => ((q.1 : Int), q.2)) = Prod.snd := rfl
    rw [this, List.enumFrom_map_snd]
  · rw [List.map_map]
    have : (Prod.fst ∘ fun q : Nat × T => ((q.1 : Int), q.2)) = Int.ofNat ∘ Prod.fst := rfl
    rw [this, ← List.map_map, List.enumFrom_map_fst, List.range_eq_range']

/-- The shifting loop of `pop_front` over slots `i .. i + k - 1`, when slot `i + k`
is allocated, returns and moves each of the slots `i + 1 .. i + k` one slot down. -/
theorem shift_loop_spec (k i : Nat) (d : List T) (h : k = 0 ∨ i + k < d.length) :
    ∃ d1, for_loop shift_slot i k (some d) = Except.ok (some d1) ∧ d1.length = d.length ∧
      ∀ j, d1[j]? = if i ≤ j ∧ j < i + k then d[j + 1]? else d[j]? := by
  induction k generalizing i d with
  | zero =>
    refine ⟨d, rfl, rfl, ?_⟩
    intro j
    have : ¬ (i ≤ j ∧ j < i + 0) := by omega
    rw [if_neg this]
  | succ k ih =>
    have hk : i + (k + 1) < d.length := by omega
    have h1 : i + 1 < d.length := by omega
    have h0 : i < d.length := by omega
    have hb : shift_slot i (some d) = Except.ok (some (d.set i d[i + 1])) := by
      simp [shift_slot, load_some d (i + 1) h1, store_some d i _ h0]
    obtain ⟨d1, e1, e2, e3⟩ := ih (i + 1) (d.set i d[i + 1]) (by simp; omega)
    refine ⟨d1, ?_, ?_, ?_⟩
    · simp only [for_loop, hb]
      exact e1
    · simpa using e2
    · intro j
      rw [e3 j]
      by_cases hj : j = i
      · subst hj
        have c1 : ¬ (j + 1 ≤ j ∧ j < j + 1 + k) := by omega
        have c2 : (j ≤ j ∧ j < j + (k + 1)) := by omega
        simp [c1, c2, List.getElem?_eq_getElem h1, List.getElem?_set, h0]
      · by_cases hr : i + 1 ≤ j ∧ j < i + 1 + k
        · have c2 : (i ≤ j ∧ j < i + (k + 1)) := by omega
          have hne : ¬ i = j + 1 := by omega
          simp [hr, c2, List.getElem?_set, hne]
        · have c2 : ¬ (i ≤ j ∧ j < i + (k + 1)) := by omega
          have hne : ¬ i = j := fun h => hj h.symm
          simp [hr, c2, List.getElem?_set, hne]

/-- C9: on a Vector whose `n = size() >= 1` elements `e_0 .. e_{n-1}` are the first
`n` slots of its block, `pop_front()` returns with `size() == n - 1`, the same
`capacity()`, and `e_{i+1}` at every index `i < n - 1`. -/
theorem C9_pop_front_shifts_left (v : Vector T) (blk : List T)
    (hd : v.data_ = some blk) (h1 : 1 ≤ v.size_) (hcap : v.size_ ≤ v.capacity_)
    (hs : v.size_ ≤ blk.length) :
    ∃ d, v.pop_front
        = Except.ok { data_ := some d, size_ := v.size_ - 1, capacity_ := v.capacity_ } ∧
      d.length = blk.length ∧
      (∀ i, i < v.size_ - 1 → d[i]? = blk[i + 1]?) ∧
      (∀ i, i < v.size_ - 1 →
        (⟨some d, v.size_ - 1, v.capacity_⟩ : Vector T).at_const i = load (some blk) (i + 1)) ∧
      v.size_ - 1 ≤ v.capacity_ := by
  have hm : dec_u64 v.size_ = v.size_ - 1 := by
    unfold dec_u64
    rw [if_neg (by omega)]
  obtain ⟨d, e1, e2, e3⟩ := shift_loop_spec (v.size_ - 1) 0 blk (by omega)
  have hget : ∀ i, i < v.size_ - 1 → d[i]? = blk[i + 1]? := by
    intro i hi
    rw [e3 i]
    have : 0 ≤ i ∧ i < 0 + (v.size_ - 1) := by omega
    rw [if_pos this]
  refine ⟨d, ?_, e2, hget, ?_, by omega⟩
  · unfold pop_front
    rw [hm, hd, e1]
  · intro i hi
    have hn : ¬ i ≥ v.size_ - 1 := by omega
    simp only [at_const]
    rw [if_neg hn]
    simp only [load]
    rw [hget i hi]

/-- Witness of C9: `{1,2,3}` becomes `{2,3}` with `size() == 2`. -/
theorem C9_pop_front_shifts_left_witness :
    (⟨some [1, 2, 3], 3, 3⟩ : Vector Nat).pop_front = Except.ok ⟨some [2, 3, 3], 2, 3⟩ ∧
    ∃ d, (⟨some [1, 2, 3], 3, 3⟩ : Vector Nat).pop_front
        = Except.ok { data_ := some d, size_ := 3 - 1, capacity_ := 3 } ∧
      d.length = [1, 2, 3].length ∧
      (∀ i, i < 3 - 1 → d[i]? = [1, 2, 3][i + 1]?) ∧
      (∀ i, i < 3 - 1 →
        (⟨some d, 3 - 1, 3⟩ : Vector Nat).at_const i = load (some [1, 2, 3]) (i + 1)) ∧
      3 - 1 ≤ 3 :=
  ⟨by decide,
   C9_pop_front_shifts_left ⟨some [1, 2, 3], 3, 3⟩ [1, 2, 3] rfl (by decide) (by decide)
     (by decide)⟩

/-- C10 (the code departs from it on copy-constructed Vectors): for every Vector,
`clear()` sets `size()` to 0 and leaves `capacity()` and the storage unchanged; with
`capacity() > 0`, the following `push_back(x)` takes no growth path and writes slot 0
of the same block: when that slot is allocated it returns with the original
capacity, `size() == 1` and `x` at index 0, and when the block has no slot, as in a
copy of an empty Vector of capacity 3, it is a write outside the allocation. -/
theorem C10_clear_then_push_back [Inhabited T] (v : Vector T) (x : T) :
    v.clear.size = 0 ∧ v.clear.capacity = v.capacity ∧ v.clear.data_ = v.data_ ∧
    (0 < v.capacity → ∀ blk, v.data_ = some blk → 0 < blk.length →
      v.clear.push_back x
        = Except.ok { data_ := some (blk.set 0 x), size_ := 1, capacity_ := v.capacity } ∧
      (⟨some (blk.set 0 x), 1, v.capacity⟩ : Vector T).at_const 0 = Except.ok x) ∧
    (0 < v.capacity → v.allocated_slots = 0 →
      v.clear.push_back x = Except.error Fault.undefined_behavior) := by
  refine ⟨rfl, rfl, rfl, ?_, ?_⟩
  · intro hpos blk hd hb
    simp only [capacity] at hpos
    constructor
    · have hn : ¬ (0 ≥ v.capacity_) := by omega
      simp only [push_back, clear, capacity]
      rw [if_neg hn]
      simp only [hd, store_some blk 0 x hb]
      rfl
    · have : (blk.set 0 x)[0]? = some x := by
        simp [List.getElem?_set, hb]
      simp [at_const, load, this]
  · intro hpos ha
    simp only [capacity] at hpos
    have hn : ¬ (0 ≥ v.capacity_) := by omega
    simp only [push_back, clear]
    rw [if_neg hn]
    simp only
    rw [store_fault]
    intro blk hblk
    simp only [allocated_slots, hblk] at ha
    omega

/-- Witness of C10: on `{1,2,3}` the `push_back(9)` after `clear()` reuses the block;
on the copy of the cleared `{1,2,3}`, which has capacity 3 on a block of no slots, it
faults. -/
theorem C10_clear_then_push_back_witness :
    (⟨some [1, 2, 3], 3, 3⟩ : Vector Nat).clear.push_back 9 = Except.ok ⟨some [9, 2, 3], 1, 3⟩ ∧
    (⟨some [1, 2, 3], 3, 3⟩ : Vector Nat).clear.size = 0 ∧
    (⟨some [1, 2, 3], 3, 3⟩ : Vector Nat).clear.capacity = 3 ∧
    Vector_copy (⟨some [1, 2, 3], 3, 3⟩ : Vector Nat).clear = Except.ok ⟨some [], 0, 3⟩ ∧
    (⟨some [], 0, 3⟩ : Vector Nat).clear.push_back 9 = Except.error Fault.undefined_behavior :=
  ⟨by decide,
   (C10_clear_then_push_back ⟨some [1, 2, 3], 3, 3⟩ 9).1,
   (C10_clear_then_push_back ⟨some [1, 2, 3], 3, 3⟩ 9).2.1,
   by decide,
   (C10_clear_then_push_back ⟨some [], 0, 3⟩ 9).2.2.2.2 (by decide) (by decide)⟩

end Vector

end Stl

namespace Stl

variable {T : Type}

/-- A copy loop over `k` slots that the source has and the destination has returns,
keeps the number of slots of the destination, fills the first `k` slots with the
source's values and leaves the others as they were. -/
theorem copy_loop_from (src : Option (List T)) (k : Nat) (dst : List T)
    (h0 : src = none → k = 0) (h1 : ∀ b, src = some b → k ≤ b.length)
    (h2 : k ≤ dst.length) :
    ∃ d, for_loop (Vector.copy_slot src) 0 k dst = Except.ok d ∧ d.length = dst.length ∧
      (∀ j, j < k → load (some d) j = load src j) ∧
      (∀ j, k ≤ j → d[j]? = dst[j]?) := by
  cases src with
  | none =>
    have hk : k = 0 := h0 rfl
    subst hk
    exact ⟨dst, rfl, rfl, fun j hj => absurd hj (Nat.not_lt_zero j), fun j _ => rfl⟩
  | some s =>
    obtain ⟨d, e1, e2, e3⟩ := copy_loop_spec s k 0 dst (by have := h1 s rfl; omega) (by omega)
    refine ⟨d, e1, e2, ?_, ?_⟩
    · intro j hj
      have c : 0 ≤ j ∧ j < 0 + k := by omega
      simp only [load]
      rw [e3 j, if_pos c]
    · intro j hj
      have c : ¬ (0 ≤ j ∧ j < 0 + k) := by omega
      rw [e3 j, if_neg c]

namespace Vector

/-- A `push_back` on a Vector with `size() >= capacity()` whose block has at most
`capacity()` slots ends in a write outside the allocation. -/
theorem push_back_no_room_faults [Inhabited T] (v : Vector T) (x : T)
    (hfull : v.size_ ≥ v.capacity_) (halloc : v.allocated_slots ≤ v.capacity_) :
    v.push_back x = Except.error Fault.undefined_behavior := by
  unfold push_back
  rw [if_pos hfull]
  unfold reserve
  by_cases hg : v.capacity_ < v.capacity_ * 2 % U64
  · rw [if_pos hg]
    simp only
    rw [store_fault]
    intro blk hblk
    simp only [allocated_slots, hblk] at halloc
    omega
  · rw [if_neg hg]
    cases hl : for_loop (copy_slot v.data_) 0 v.size_ (new_array (v.capacity_ * 2 % U64)) with
    | error e =>
      simp only
      rw [copy_loop_error _ _ _ _ _ hl]
    | ok d =>
      simp only
      have hlen := copy_loop_length _ _ _ _ _ hl
      rw [store_fault]
      intro blk hblk
      have hb : blk = d := by simpa using hblk.symm
      subst hb
      simp only [new_array, List.length_replicate] at hlen
      omega

/-- C11 (the code departs from it at full capacity): copy assignment from `b1` (with
`size() <= capacity()` and its elements present) gives the target `b1`'s size and
capacity on a block of `b1.capacity()` slots whose elements below `size()` equal
`b1`'s.  A later `push_back` on the target returns when `b1.size() < b1.capacity()`,
with the copied elements still equal to `b1`'s; when `b1.size() == b1.capacity()`,
as for `b1 = {1,2,3}`, it is a write outside the target's allocation. -/
theorem C11_copy_assignment_then_push_back [Inhabited T] (b2 b1 : Vector T) (x : T)
    (hs : b1.size_ ≤ b1.capacity_) (ha : b1.size_ ≤ b1.allocated_slots)
    (hc : b1.capacity_ < U64) :
    ∃ d, operator_assign b2 b1
        = Except.ok { data_ := some d, size_ := b1.size_, capacity_ := b1.capacity_ } ∧
      (⟨some d, b1.size_, b1.capacity_⟩ : Vector T).size = b1.size ∧
      (⟨some d, b1.size_, b1.capacity_⟩ : Vector T).capacity = b1.capacity ∧
      d.length = b1.capacity ∧
      (∀ i, i < b1.size →
        (⟨some d, b1.size_, b1.capacity_⟩ : Vector T).operator_subscript i
          = b1.operator_subscript i) ∧
      (b1.size_ < b1.capacity_ →
        (⟨some d, b1.size_, b1.capacity_⟩ : Vector T).push_back x
          = Except.ok ⟨some (d.set b1.size_ x), b1.size_ + 1, b1.capacity_⟩ ∧
        ∀ i, i < b1.size →
          (⟨some (d.set b1.size_ x), b1.size_ + 1, b1.capacity_⟩ : Vector T).operator_subscript i
            = b1.operator_subscript i) ∧
      (b1.size_ = b1.capacity_ →
        (⟨some d, b1.size_, b1.capacity_⟩ : Vector T).push_back x
          = Except.error Fault.undefined_behavior) := by
  obtain ⟨d, e1, e2, e3, _⟩ := copy_loop_from b1.data_ b1.size_ (new_array b1.capacity_)
    (by
      intro hn
      simp only [allocated_slots, hn] at ha
      omega)
    (by
      intro b hb
      simpa only [allocated_slots, hb] using ha)
    (by simp [new_array]; omega)
  have hlen : d.length = b1.capacity_ := by simpa [new_array] using e2
  have hassign : operator_assign b2 b1
      = Except.ok { data_ := some d, size_ := b1.size_, capacity_ := b1.capacity_ } := by
    unfold operator_assign
    rw [e1]
  refine ⟨d, hassign, rfl, rfl, hlen, ?_, ?_, ?_⟩
  · intro i hi
    exact e3 i hi
  · intro hlt
    have hroom : b1.size_ < d.length := by omega
    have hn : ¬ (b1.size_ ≥ b1.capacity_) := by omega
    have hmod : (b1.size_ + 1) % U64 = b1.size_ + 1 := Nat.mod_eq_of_lt (by omega)
    constructor
    · simp only [push_back]
      rw [if_neg hn]
      simp only [store_some d b1.size_ x hroom, hmod]
    · intro i hi
      simp only [size] at hi
      have hne : ¬ b1.size_ = i := by omega
      have := e3 i hi
      simp only [operator_subscript, load] at this ⊢
      rw [List.getElem?_set]
      simp only [hne, if_false]
      exact this
  · intro heq
    apply push_back_no_room_faults
    · show b1.size_ ≥ b1.capacity_
      omega
    · show allocated_slots (⟨some d, b1.size_, b1.capacity_⟩ : Vector T) ≤ b1.capacity_
      simp only [allocated_slots]
      omega

/-- Witness of C11: after `b2 = b1` with `b1 = {1,2,3}` the target is `{1,2,3}` on a
block of 3 slots, and `b2.push_back(9)` faults. -/
theorem C11_copy_assignment_then_push_back_witness :
    operator_assign (Vector_default : Vector Nat) ⟨some [1, 2, 3], 3, 3⟩
      = Except.ok ⟨some [1, 2, 3], 3, 3⟩ ∧
    (⟨some [1, 2, 3], 3, 3⟩ : Vector Nat).push_back 9 = Except.error Fault.undefined_behavior ∧
    ∃ d, operator_assign (Vector_default : Vector Nat) ⟨some [1, 2, 3], 3, 3⟩
        = Except.ok { data_ := some d, size_ := 3, capacity_ := 3 } ∧ d.length = 3 ∧
      (⟨some d, 3, 3⟩ : Vector Nat).push_back 9 = Except.error Fault.undefined_behavior :=
  ⟨by decide, by decide,
   (C11_copy_assignment_then_push_back Vector_default ⟨some [1, 2, 3], 3, 3⟩ 9
      (by decide) (by decide) (by decide)).imp
     (fun _ h => ⟨h.1, h.2.2.2.1, h.2.2.2.2.2.2 rfl⟩)⟩

/-- C12 (the code departs from it): the copy constructor allocates `other.size()`
slots, not `other.capacity()`: the copy has `other`'s size, capacity and elements on
a block of exactly `size()` slots, so when `size() < capacity()` the slot count
differs from `capacity()` and a `push_back` on the copy, which sees room, writes
outside the allocation. -/
theorem C12_copy_constructor_block_has_size_slots [Inhabited T] (other : Vector T) (x : T)
    (ha : other.size_ ≤ other.allocated_slots) :
    ∃ d, Vector_copy other
        = Except.ok { data_ := some d, size_ := other.size_, capacity_ := other.capacity_ } ∧
      (⟨some d, other.size_, other.capacity_⟩ : Vector T).allocated_slots = other.size ∧
      (∀ i, i < other.size →
        (⟨some d, other.size_, other.capacity_⟩ : Vector T).operator_subscript i
          = other.operator_subscript i) ∧
      (other.size_ < other.capacity_ →
        (⟨some d, other.size_, other.capacity_⟩ : Vector T).allocated_slots ≠ other.capacity ∧
        (⟨some d, other.size_, other.capacity_⟩ : Vector T).push_back x
          = Except.error Fault.undefined_behavior) := by
  obtain ⟨d, e1, e2, e3, _⟩ := copy_loop_from other.data_ other.size_ (new_array other.size_)
    (by
      intro hn
      simp only [allocated_slots, hn] at ha
      omega)
    (by
      intro b hb
      simpa only [allocated_slots, hb] using ha)
    (by simp [new_array])
  have hlen : d.length = other.size_ := by simpa [new_array] using e2
  refine ⟨d, ?_, ?_, ?_, ?_⟩
  · unfold Vector_copy
    rw [e1]
  · simpa [allocated_slots, size] using hlen
  · intro i hi
    exact e3 i hi
  · intro hlt
    constructor
    · simp only [allocated_slots, capacity, hlen]
      omega
    · have hn : ¬ (other.size_ ≥ other.capacity_) := by omega
      simp only [push_back]
      rw [if_neg hn]
      simp only
      rw [store_fault]
      intro blk hblk
      have hb : blk = d := by simpa using hblk.symm
      subst hb
      omega

/-- Witness of C12: copying `{1,2,3}` after one `pop_back` (size 2, capacity 3) gives
capacity 3 on a block of 2 slots, and `push_back(9)` on the copy faults. -/
theorem C12_copy_constructor_block_has_size_slots_witness :
    Vector_copy (pop_back (⟨some [1, 2, 3], 3, 3⟩ : Vector Nat))
      = Except.ok ⟨some [1, 2], 2, 3⟩ ∧
    (⟨some [1, 2], 2, 3⟩ : Vector Nat).push_back 9 = Except.error Fault.undefined_behavior ∧
    ∃ d, Vector_copy (pop_back (⟨some [1, 2, 3], 3, 3⟩ : Vector Nat))
        = Except.ok { data_ := some d, size_ := 2, capacity_ := 3 } ∧
      (⟨some d, 2, 3⟩ : Vector Nat).allocated_slots = 2 :=
  ⟨by decide, by decide,
   (C12_copy_constructor_block_has_size_slots (pop_back ⟨some [1, 2, 3], 3, 3⟩) 9
      (by decide)).imp
     (fun _ h => ⟨h.1, h.2.1⟩)⟩

end Vector

end Stl

namespace LegacyRandomAccessIterator

/-- The loop `while (m--) ++*this;` entered with `m = k ≥ 0` stops within `k + 1`
tests, after `k` moves, where `advance_loop k` leaves the iterator. -/
theorem while_post_dec_spec (k fuel : Nat) (it : LegacyRandomAccessIterator) (moves : Nat)
    (hf : k < fuel) :
    while_post_dec fuel (k : Int) it moves = some (advance_loop k it, moves + k) := by
  induction k generalizing fuel it moves with
  | zero =>
    cases fuel with
    | zero => omega
    | succ f => simp [while_post_dec, advance_loop]
  | succ k ih =>
    cases fuel with
    | zero => omega
    | succ f =>
      have hne : ((k + 1 : Nat) : Int) ≠ 0 := by omega
      have hm : ((k + 1 : Nat) : Int) - 1 = (k : Int) := by omega
      simp only [while_post_dec, advance_loop]
      rw [if_pos hne, hm, ih f _ _ (by omega)]
      congr 2
      omega

/-- The loop `while (m++) --*this;` entered with `m = -k ≤ 0` stops within `k + 1`
tests, after `k` moves, where `retreat_loop k` leaves the iterator. -/
theorem while_post_inc_spec (k fuel : Nat) (it : LegacyRandomAccessIterator) (moves : Nat)
    (hf : k < fuel) :
    while_post_inc fuel (-(k : Int)) it moves = some (retreat_loop k it, moves + k) := by
  induction k generalizing fuel it moves with
  | zero =>
    cases fuel with
    | zero => omega
    | succ f => simp [while_post_inc, retreat_loop]
  | succ k ih =>
    cases fuel with
    | zero => omega
    | succ f =>
      have hne : -((k + 1 : Nat) : Int) ≠ 0 := by omega
      have hm : -((k + 1 : Nat) : Int) + 1 = -(k : Int) := by omega
      simp only [while_post_inc, retreat_loop]
      rw [if_pos hne, hm, ih f _ _ (by omega)]
      congr 2
      omega

/-- C13 (as amended): for every position `p` and every `n`, the loops of
`operator+=(n)` as written stop after exactly `|n|` single-step moves with the
iterator at `p + n`, which is what `operator_plus_assign` computes; and
`operator-=(n)` leaves the iterator at `p - n` for every `n` other than the least
`difference_type`, whose negation overflows. -/
theorem C13_looped_offsets_agree (p n : Int) :
    (∀ fuel, n.natAbs < fuel →
      operator_plus_assign_loop fuel ⟨p⟩ n = some (⟨p + n⟩, n.natAbs)) ∧
    operator_plus_assign ⟨p⟩ n = ⟨p + n⟩ ∧
    (n ≠ PTRDIFF_MIN → operator_minus_assign ⟨p⟩ n = Except.ok ⟨p - n⟩) := by
  have hpos : ∀ m : Int, operator_plus_assign ⟨p⟩ m = ⟨p + m⟩ := by
    intro m
    have := operator_plus_assign_pos ⟨p⟩ m
    cases hr : operator_plus_assign ⟨p⟩ m with
    | mk q =>
      rw [hr] at this
      simp only at this
      rw [this]
  refine ⟨?_, hpos n, ?_⟩
  · intro fuel hf
    unfold operator_plus_assign_loop
    by_cases hn : n ≥ 0
    · rw [if_pos hn]
      have hk : ((n.natAbs : Nat) : Int) = n := by omega
      have h := while_post_dec_spec n.natAbs fuel ⟨p⟩ 0 hf
      rw [hk] at h
      rw [h]
      have hp := advance_loop_pos n.natAbs ⟨p⟩
      cases hr : advance_loop n.natAbs ⟨p⟩ with
      | mk q =>
        rw [hr] at hp
        simp only at hp
        simp only [Nat.zero_add, Option.some.injEq, Prod.mk.injEq, and_true]
        congr 1
        omega
    · rw [if_neg hn]
      have hk : -((n.natAbs : Nat) : Int) = n := by omega
      have h := while_post_inc_spec n.natAbs fuel ⟨p⟩ 0 hf
      rw [hk] at h
      rw [h]
      have hp := retreat_loop_pos n.natAbs ⟨p⟩
      cases hr : retreat_loop n.natAbs ⟨p⟩ with
      | mk q =>
        rw [hr] at hp
        simp only at hp
        simp only [Nat.zero_add, Option.some.injEq, Prod.mk.injEq, and_true]
        congr 1
        omega
  · intro hn
    simp only [operator_minus_assign]
    rw [if_neg hn, hpos (-n)]
    congr 2

/-- Witness of C13: from position 5, `it += -3` makes 3 moves to position 2 and
`it -= 3` ends at position 2. -/
theorem C13_looped_offsets_agree_witness :
    operator_plus_assign_loop 4 ⟨5⟩ (-3) = some (⟨5 + -3⟩, 3) ∧
    operator_minus_assign ⟨5⟩ 3 = Except.ok ⟨5 - 3⟩ :=
  ⟨(C13_looped_offsets_agree 5 (-3)).1 4 (by decide),
   (C13_looped_offsets_agree 5 3).2.2 (by decide)⟩

/-- Counterexample to C13 as stated: at the least `difference_type` the negation in
`operator-=` overflows, so the call has no defined result and the iterator is not
left at `p - n`. -/
theorem C13_counterexample :
    operator_minus_assign ⟨0⟩ PTRDIFF_MIN = Except.error Stl.Fault.undefined_behavior ∧
    operator_minus_assign ⟨0⟩ PTRDIFF_MIN ≠ Except.ok ⟨0 - PTRDIFF_MIN⟩ := by
  constructor
  · decide
  · decide

/-- C14: on positions `pa`, `pb` of one storage, `==` and `!=` test equality of the
positions, `a < b` is the test `b - a > 0` and all four relational operators agree
with the integer order, so exactly one of `a < b`, `a == b`, `a > b` holds. -/
theorem C14_comparisons_follow_positions (a b : LegacyRandomAccessIterator) :
    (LegacyInputIterator.operator_eq a b = true ↔ a.p_data_ = b.p_data_) ∧
    (LegacyInputIterator.operator_ne a b = true ↔ a.p_data_ ≠ b.p_data_) ∧
    (operator_lt a b = true ↔ operator_minus b a > 0) ∧
    (operator_lt a b = true ↔ a.p_data_ < b.p_data_) ∧
    (operator_gt a b = true ↔ a.p_data_ > b.p_data_) ∧
    (operator_le a b = true ↔ a.p_data_ ≤ b.p_data_) ∧
    (operator_ge a b = true ↔ a.p_data_ ≥ b.p_data_) ∧
    ((operator_lt a b = true ∧ LegacyInputIterator.operator_eq a b = false ∧
        operator_gt a b = false) ∨
     (operator_lt a b = false ∧ LegacyInputIterator.operator_eq a b = true ∧
        operator_gt a b = false) ∨
     (operator_lt a b = false ∧ LegacyInputIterator.operator_eq a b = false ∧
        operator_gt a b = true)) := by
  have heq : LegacyInputIterator.operator_eq a b = true ↔ a.p_data_ = b.p_data_ := by
    simp only [LegacyInputIterator.operator_eq, decide_eq_true_eq]
    omega
  have hlt : ∀ x y : LegacyRandomAccessIterator,
      operator_lt x y = true ↔ x.p_data_ < y.p_data_ := by
    intro x y
    simp only [operator_lt, operator_minus, decide_eq_true_eq]
    omega
  have hne : LegacyInputIterator.operator_ne a b = true ↔ a.p_data_ ≠ b.p_data_ := by
    simp only [LegacyInputIterator.operator_ne, Bool.not_eq_true', ne_eq]
    rw [← heq]
    simp
  have hgt : operator_gt a b = true ↔ a.p_data_ > b.p_data_ := by
    simp only [operator_gt]
    exact hlt b a
  have hle : operator_le a b = true ↔ a.p_data_ ≤ b.p_data_ := by
    simp only [operator_le, Bool.not_eq_true']
    rw [← Bool.not_eq_true, hgt]
    omega
  have hge : operator_ge a b = true ↔ a.p_data_ ≥ b.p_data_ := by
    simp only [operator_ge, Bool.not_eq_true']
    rw [← Bool.not_eq_true, hlt a b]
    omega
  refine ⟨heq, hne, ?_, hlt a b, hgt, hle, hge, ?_⟩
  · simp only [operator_lt, decide_eq_true_eq]
  · have hlt' := hlt a b
    rcases Int.lt_trichotomy a.p_data_ b.p_data_ with h | h | h
    · left
      refine ⟨hlt'.2 h, ?_, ?_⟩
      · rw [← Bool.not_eq_true, heq]
        omega
      · rw [← Bool.not_eq_true, hgt]
        omega
    · right; left
      refine ⟨?_, heq.2 h, ?_⟩
      · rw [← Bool.not_eq_true, hlt']
        omega
      · rw [← Bool.not_eq_true, hgt]
        omega
    · right; right
      refine ⟨?_, ?_, hgt.2 h⟩
      · rw [← Bool.not_eq_true, hlt']
        omega
      · rw [← Bool.not_eq_true, heq]
        omega

/-- C16 (the code departs from it): `it[n]` is written `*(this + index)`, on the
address of the iterator object, so it designates the iterator object `n` objects
after the receiver and never the element at position `p + n` that dereferencing the
iterator at `p + n` designates; the receiver is left at position `p`. -/
theorem C16_subscript_designates_iterator_object (it : LegacyRandomAccessIterator) (n : Int) :
    (operator_subscript it n).1 = Referent.iterator_object n ∧
    (operator_subscript it n).1 ≠ deref_referent ⟨it.p_data_ + n⟩ ∧
    (operator_subscript it n).1 ≠ deref_referent (operator_plus it n).1 ∧
    (operator_subscript it n).2 = it := by
  refine ⟨rfl, ?_, ?_, rfl⟩
  · simp [operator_subscript, deref_referent]
  · simp [operator_subscript, deref_referent, operator_plus]

end LegacyRandomAccessIterator

namespace Stl

namespace Vector

variable {T : Type}

/-- C15 (the code departs from it where growth is needed): on a Vector with a free
allocated slot (`size() < capacity()`), `push_back(x)` returns and the following
`pop_back()` restores the prior `size()` with every element below it as before.  At
`size() >= capacity()` the `push_back` itself fails, as C2 shows. -/
theorem C15_pop_back_undoes_push_back [Inhabited T] (v : Vector T) (blk : List T) (x : T)
    (hd : v.data_ = some blk) (hlt : v.size_ < v.capacity_) (ha : v.size_ < blk.length)
    (hc : v.capacity_ < U64) :
    ∃ v1, v.push_back x = Except.ok v1 ∧
      (pop_back v1).size = v.size ∧
      pop_back v1 = ⟨some (blk.set v.size_ x), v.size_, v.capacity_⟩ ∧
      ∀ i, i < v.size →
        (pop_back v1).operator_subscript i = v.operator_subscript i ∧
        (pop_back v1).at_const i = v.at_const i := by
  have hn : ¬ (v.size_ ≥ v.capacity_) := by omega
  have hmod : (v.size_ + 1) % U64 = v.size_ + 1 := Nat.mod_eq_of_lt (by omega)
  have hpush : v.push_back x
      = Except.ok ⟨some (blk.set v.size_ x), v.size_ + 1, v.capacity_⟩ := by
    simp only [push_back]
    rw [if_neg hn]
    simp only [hd, store_some blk v.size_ x ha, hmod]
  have hdec : dec_u64 (v.size_ + 1) = v.size_ := by
    unfold dec_u64
    rw [if_neg (by omega), Nat.add_sub_cancel]
  have hpop : pop_back (⟨some (blk.set v.size_ x), v.size_ + 1, v.capacity_⟩ : Vector T)
      = ⟨some (blk.set v.size_ x), v.size_, v.capacity_⟩ := by
    simp only [pop_back, hdec]
  refine ⟨_, hpush, ?_, hpop, ?_⟩
  · rw [hpop]
    rfl
  · intro i hi
    simp only [size] at hi
    rw [hpop]
    have hne : ¬ v.size_ = i := by omega
    have hget : (blk.set v.size_ x)[i]? = blk[i]? := by
      rw [List.getElem?_set]
      simp only [hne, if_false]
    have hload : load (some (blk.set v.size_ x)) i = load v.data_ i := by
      simp only [load, hd, hget]
    have hge : ¬ (i ≥ v.size_) := by omega
    constructor
    · simpa only [operator_subscript] using hload
    · simp only [at_const]
      rw [if_neg hge, if_neg hge]
      exact hload

/-- Witness of C15: on `{1,2,3}` after one `pop_back` the round trip restores size 2;
on the default-constructed empty Vector the `push_back` already faults. -/
theorem C15_pop_back_undoes_push_back_witness :
    (∃ v1, (pop_back (⟨some [1, 2, 3], 3, 3⟩ : Vector Nat)).push_back 9 = Except.ok v1 ∧
      (pop_back v1).size = 2) ∧
    (Vector_default : Vector Nat).push_back 9 = Except.error Fault.undefined_behavior :=
  ⟨(C15_pop_back_undoes_push_back (pop_back ⟨some [1, 2, 3], 3, 3⟩) [1, 2, 3] 9 rfl
      (by decide) (by decide) (by decide)).imp (fun _ h => ⟨h.1, h.2.1⟩),
   by decide⟩

/-- C17: `pop_back()` keeps `capacity()` and sets `size()` to the old size minus one
modulo `2 ^ 64`, with no bounds check; on an empty Vector `size()` becomes
`2 ^ 64 - 1`, `is_empty()` is false and `size()` exceeds `capacity()`. -/
theorem C17_pop_back_wraps (v : Vector T) :
    (pop_back v).capacity = v.capacity ∧
    (pop_back v).data_ = v.data_ ∧
    (v.size < U64 → (pop_back v).size = (v.size + U64 - 1) % 2 ^ 64) ∧
    (v.size = 0 →
      (pop_back v).size = 2 ^ 64 - 1 ∧ (pop_back v).is_empty = false ∧
      (v.capacity < 2 ^ 64 - 1 → (pop_back v).size > (pop_back v).capacity)) := by
  refine ⟨rfl, rfl, ?_, ?_⟩
  · intro h
    simp only [size] at h ⊢
    simp only [pop_back]
    rw [dec_u64_eq_mod v.size_ h]
    rfl
  · intro h0
    simp only [size] at h0
    have hs : (pop_back v).size_ = 2 ^ 64 - 1 := by
      simp only [pop_back, dec_u64, h0]
      rfl
    refine ⟨hs, ?_, ?_⟩
    · simp only [is_empty, hs]
      decide
    · intro hc
      simp only [size, capacity] at hc ⊢
      rw [hs]
      exact hc

/-- Witness of C17 on the default-constructed empty Vector and on `{1,2,3}`. -/
theorem C17_pop_back_wraps_witness :
    (pop_back (Vector_default : Vector Nat)).size = 2 ^ 64 - 1 ∧
    (pop_back (Vector_default : Vector Nat)).is_empty = false ∧
    (pop_back (Vector_default : Vector Nat)).size
      > (pop_back (Vector_default : Vector Nat)).capacity ∧
    (pop_back (⟨some [1, 2, 3], 3, 3⟩ : Vector Nat)).size = (3 + U64 - 1) % 2 ^ 64 :=
  ⟨((C17_pop_back_wraps Vector_default).2.2.2 rfl).1,
   ((C17_pop_back_wraps Vector_default).2.2.2 rfl).2.1,
   ((C17_pop_back_wraps Vector_default).2.2.2 rfl).2.2 (by decide),
   (C17_pop_back_wraps ⟨some [1, 2, 3], 3, 3⟩).2.2.1 (by decide)⟩

/-- C20 (the code departs from it where growth is needed): on a Vector with
`capacity() < 2 ^ 63` the growth call `reserve(capacity() * 2)` never raises
`capacity()`: for `capacity() > 0` it returns at once with the Vector as it was.  A
`push_back` into a free allocated slot (`size() < capacity()`) returns with
`capacity()` as before and `size()` increased by exactly 1; at `size() >= capacity()`
(on a block of at most `capacity()` slots) the write that follows the growth call is
outside the allocation, so the call yields no Vector at all. -/
theorem C20_push_back_keeps_capacity [Inhabited T] (v : Vector T) (x : T)
    (hc : v.capacity_ < 2 ^ 63) :
    (0 < v.capacity_ → v.reserve (v.capacity_ * 2 % U64) = Except.ok v) ∧
    (∀ v1, v.reserve (v.capacity_ * 2 % U64) = Except.ok v1 →
      v1.capacity = v.capacity ∧ v1.size = v.size) ∧
    (∀ blk, v.data_ = some blk → v.size_ < v.capacity_ → v.size_ < blk.length →
      v.push_back x = Except.ok ⟨some (blk.set v.size_ x), v.size_ + 1, v.capacity_⟩) ∧
    (v.size_ ≥ v.capacity_ → v.allocated_slots ≤ v.capacity_ →
      v.push_back x = Except.error Fault.undefined_behavior) := by
  have hU : U64 = 2 ^ 64 := rfl
  have hdouble : v.capacity_ * 2 % U64 = v.capacity_ * 2 := Nat.mod_eq_of_lt (by omega)
  have hres : ∀ v1, v.reserve (v.capacity_ * 2 % U64) = Except.ok v1 →
      v1.capacity_ = v.capacity_ ∧ v1.size_ = v.size_ := by
    intro v1 h
    rw [hdouble] at h
    unfold reserve at h
    by_cases hg : v.capacity_ < v.capacity_ * 2
    · rw [if_pos hg] at h
      have : v = v1 := by simpa using h
      subst this
      exact ⟨rfl, rfl⟩
    · rw [if_neg hg] at h
      cases hl : for_loop (copy_slot v.data_) 0 v.size_ (new_array (v.capacity_ * 2)) with
      | error e => simp [hl] at h
      | ok d =>
        simp only [hl] at h
        have : ({ data_ := some d, size_ := v.size_, capacity_ := v.capacity_ * 2 } : Vector T)
            = v1 := by simpa using h
        subst this
        refine ⟨?_, rfl⟩
        show v.capacity_ * 2 = v.capacity_
        omega
  refine ⟨?_, hres, ?_, ?_⟩
  · intro hpos
    rw [hdouble]
    unfold reserve
    rw [if_pos (by omega)]
  · intro blk hd hlt ha
    have hn : ¬ (v.size_ ≥ v.capacity_) := by omega
    have hmod : (v.size_ + 1) % U64 = v.size_ + 1 := Nat.mod_eq_of_lt (by omega)
    simp only [push_back]
    rw [if_neg hn]
    simp only [hd, store_some blk v.size_ x ha, hmod]
  · intro hfull halloc
    exact push_back_no_room_faults v x hfull halloc

/-- Witness of C20: on `{1,2,3}` after one `pop_back`, `push_back(9)` returns with
capacity 3 and size 3; on the default-constructed empty Vector `push_back(7)` faults. -/
theorem C20_push_back_keeps_capacity_witness :
    (pop_back (⟨some [1, 2, 3], 3, 3⟩ : Vector Nat)).push_back 9
      = Except.ok ⟨some [1, 2, 9], 3, 3⟩ ∧
    (Vector_default : Vector Nat).push_back 7 = Except.error Fault.undefined_behavior ∧
    (⟨some [1, 2, 3], 3, 3⟩ : Vector Nat).reserve (3 * 2 % U64)
      = Except.ok ⟨some [1, 2, 3], 3, 3⟩ :=
  ⟨(C20_push_back_keeps_capacity (pop_back ⟨some [1, 2, 3], 3, 3⟩) 9 (by decide)).2.2.1
      [1, 2, 3] rfl (by decide) (by decide),
   (C20_push_back_keeps_capacity Vector_default 7 (by decide)).2.2.2 (by decide) (by decide),
   (C20_push_back_keeps_capacity ⟨some [1, 2, 3], 3, 3⟩ 7 (by decide)).1 (by decide)⟩

end Vector

end Stl

namespace Earlier

namespace Vector

variable {T : Type}

/-- C18 (the code departs from it at capacity 0): in the earlier Vector, doubling a
capacity of 0 gives 0, so `push_back` on a Vector with `capacity_ == 0`, such as the
default-constructed one, writes outside the allocation.  When `capacity_ > 0` the
growth does what the claim says: the capacity doubles, the elements below the old
`size()` are kept, `Value` is stored at the old `size()` and `capacity >= size()`. -/
theorem C18_earlier_push_back_growth [Inhabited T] (v : Vector T) (x : T) :
    (v.capacity_ = 0 → v.push_back x = Except.error Stl.Fault.undefined_behavior) ∧
    (∀ blk, v.data_ = some blk → v.size_ ≥ v.capacity_ → v.size_ < 2 * v.capacity_ →
      v.size_ ≤ blk.length → 2 * v.capacity_ < Stl.U64 →
      ∃ d, v.push_back x = Except.ok ⟨some d, v.size_ + 1, 2 * v.capacity_⟩ ∧
        d.length = 2 * v.capacity_ ∧
        v.size_ + 1 ≤ 2 * v.capacity_ ∧
        (∀ i, i < v.size_ → d[i]? = blk[i]?) ∧
        d[v.size_]? = some x) := by
  constructor
  · intro h0
    have hfull : v.size_ ≥ v.capacity_ := by omega
    simp only [push_back]
    rw [if_pos hfull]
    simp only [add_memory, h0]
    cases hl : Stl.for_loop (Stl.Vector.copy_slot v.data_) 0 v.size_
        (Stl.new_array (0 * 2 % Stl.U64)) with
    | error e =>
      simp only
      rw [Stl.copy_loop_error _ _ _ _ _ hl]
    | ok d =>
      simp only
      have hlen := Stl.copy_loop_length _ _ _ _ _ hl
      rw [Stl.store_fault]
      intro blk hblk
      have hb : blk = d := by simpa using hblk.symm
      subst hb
      have : (Stl.new_array (0 * 2 % Stl.U64) : List T).length = 0 := by
        simp [Stl.new_array]
      omega
  · intro blk hd hfull hfit hs hU
    have hdouble : v.capacity_ * 2 % Stl.U64 = 2 * v.capacity_ := by
      rw [Nat.mul_comm]
      exact Nat.mod_eq_of_lt hU
    obtain ⟨d, e1, e2, e3, _⟩ := Stl.copy_loop_from (some blk) v.size_
      (Stl.new_array (2 * v.capacity_))
      (by intro h; cases h)
      (by
        intro b hb
        have : blk = b := by simpa using hb
        subst this
        exact hs)
      (by simp [Stl.new_array]; omega)
    have hlen : d.length = 2 * v.capacity_ := by simpa [Stl.new_array] using e2
    have hroom : v.size_ < d.length := by omega
    have hmod : (v.size_ + 1) % Stl.U64 = v.size_ + 1 := Nat.mod_eq_of_lt (by omega)
    refine ⟨d.set v.size_ x, ?_, by simpa using hlen, by omega, ?_, ?_⟩
    · simp only [push_back]
      rw [if_pos hfull]
      simp only [add_memory, hdouble, hd, e1, Stl.store_some d v.size_ x hroom, hmod]
    · intro i hi
      have hne : ¬ v.size_ = i := by omega
      have h3 := e3 i hi
      simp only [Stl.load] at h3
      rw [List.getElem?_set]
      simp only [hne, if_false]
      cases hdi : d[i]? with
      | none =>
        cases hbi : blk[i]? with
        | none => rfl
        | some y => simp [hdi, hbi] at h3
      | some y =>
        cases hbi : blk[i]? with
        | none => simp [hdi, hbi] at h3
        | some z =>
          simp only [hdi, hbi] at h3
          have : y = z := by simpa using h3
          rw [this]
    · rw [List.getElem?_set]
      simp [hroom]

/-- Witness of C18: the default-constructed Vector cannot take a first element, while
a full Vector of capacity 2 grows to capacity 4. -/
theorem C18_earlier_push_back_growth_witness :
    (Vector_default : Vector Nat).push_back 1 = Except.error Stl.Fault.undefined_behavior ∧
    (⟨some [1, 2], 2, 2⟩ : Vector Nat).push_back 7 = Except.ok ⟨some [1, 2, 7, 0], 3, 4⟩ ∧
    ∃ d, (⟨some [1, 2], 2, 2⟩ : Vector Nat).push_back 7 = Except.ok ⟨some d, 2 + 1, 2 * 2⟩ ∧
      d.length = 2 * 2 :=
  ⟨(C18_earlier_push_back_growth Vector_default 1).1 rfl, by decide,
   ((C18_earlier_push_back_growth ⟨some [1, 2], 2, 2⟩ 7).2 [1, 2] rfl (by decide) (by decide)
      (by decide) (by decide)).imp (fun _ h => ⟨h.1, h.2.1⟩)⟩

end Vector

namespace Iterator

/-- C19 (the code departs from it): in the earlier Iterator, `a == b` is an
assignment: it moves `a` to the position of `b` and yields `a` itself, an Iterator
and not a truth value, whatever the two positions are; only `a != b` compares, and
is true exactly when the positions differ. -/
theorem C19_earlier_operator_eq_assigns (a b : Iterator) :
    operator_eq a b = b ∧
    (operator_eq a b).current_ = b.current_ ∧
    (a.current_ ≠ b.current_ → operator_eq a b ≠ a) ∧
    (operator_ne a b = true ↔ a.current_ ≠ b.current_) ∧
    operator_ne (operator_eq a b) b = false := by
  refine ⟨rfl, rfl, ?_, ?_, ?_⟩
  · intro h heq
    apply h
    have := congrArg Iterator.current_ heq
    simpa [operator_eq] using this.symm
  · simp [operator_ne]
  · simp [operator_ne, operator_eq]

/-- Witness of C19: with `a` at position 0 and `b` at position 2, `a == b` leaves `a`
at position 2. -/
theorem C19_earlier_operator_eq_assigns_witness :
    operator_eq ⟨0⟩ ⟨2⟩ = (⟨2⟩ : Iterator) ∧ operator_eq ⟨0⟩ ⟨2⟩ ≠ (⟨0⟩ : Iterator) ∧
    operator_ne ⟨0⟩ ⟨2⟩ = true :=
  ⟨(C19_earlier_operator_eq_assigns ⟨0⟩ ⟨2⟩).1,
   (C19_earlier_operator_eq_assigns ⟨0⟩ ⟨2⟩).2.2.1 (by decide), by decide⟩

end Iterator

end Earlier
